import Mathlib

/-!
Verification of `sirmordred/task_panels.py` against its natural-language
specification.  The Python source is shallowly embedded below: each pure
fragment becomes a Lean function, the stateful Elasticsearch interactions
become explicit state passing over a small backend-state type, and Python
`OrderedDict` becomes an association list with update-in-place-or-append
insertion semantics.
-/

set_option maxHeartbeats 1000000

namespace Sirmordred

/-! ## Data-source expansion (`TaskPanels.create_dashboard`, lines 268-284)

The Python code receives a list `data_sources` and, for each implication
rule, appends the rule's target when any of its trigger sources is present:

    mboxes_sources = set(['pipermail', 'hyperkitty', 'groupsio', 'nntp'])
    if data_sources and any(x in data_sources for x in mboxes_sources):
        data_sources.append('mbox')
    if data_sources and ('supybot' in data_sources): ... append('irc')
    if data_sources and 'google_hits' in data_sources: ... append('googlehits')
    if data_sources and 'stackexchange' in data_sources: ... append('stackoverflow')
    if data_sources and 'phabricator' in data_sources: ... append('maniphest')

The guard `if data_sources` (non-empty check) is redundant with the trigger
membership tests: an empty list contains no trigger, so dropping it does not
change the function.
-/

/-- The mailing-list backends that all imply the shared `"mbox"` family
(`mboxes_sources` in the source). -/
def mboxes_sources : List String := ["pipermail", "hyperkitty", "groupsio", "nntp"]

/-- One implication rule of `create_dashboard`: if any trigger source is in
the list, append the target, otherwise leave the list unchanged. -/
def applyRule (triggers : List String) (target : String) (ds : List String) :
    List String :=
  if ∃ y ∈ triggers, y ∈ ds then ds ++ [target] else ds

/-- The data-source expansion performed by `create_dashboard` before the
dashboard import, as the sequential composition of its five implication
rules (in source order). -/
def expandDataSources (ds : List String) : List String :=
  applyRule ["phabricator"] "maniphest"
    (applyRule ["stackexchange"] "stackoverflow"
      (applyRule ["google_hits"] "googlehits"
        (applyRule ["supybot"] "irc"
          (applyRule mboxes_sources "mbox" ds))))

theorem mem_applyRule (ts : List String) (t x : String) (ds : List String) :
    x ∈ applyRule ts t ds ↔ x ∈ ds ∨ (x = t ∧ ∃ y ∈ ts, y ∈ ds) := by
  unfold applyRule
  split
  · next h => simp only [List.mem_append, List.mem_singleton]; tauto
  · next h =>
      constructor
      · exact fun hx => Or.inl hx
      · rintro (hx | ⟨-, hy⟩)
        · exact hx
        · exact absurd hy h

theorem mem_applyRule_of_ne {u t : String} (hne : u ≠ t) (ts ds : List String) :
    u ∈ applyRule ts t ds ↔ u ∈ ds := by
  rw [mem_applyRule]; simp [hne]

/-- Membership characterization of the expanded data-source list. -/
theorem mem_expandDataSources (x : String) (S : List String) :
    x ∈ expandDataSources S ↔ x ∈ S
      ∨ (x = "mbox" ∧ ("pipermail" ∈ S ∨ "hyperkitty" ∈ S ∨ "groupsio" ∈ S ∨ "nntp" ∈ S))
      ∨ (x = "irc" ∧ "supybot" ∈ S)
      ∨ (x = "googlehits" ∧ "google_hits" ∈ S)
      ∨ (x = "stackoverflow" ∧ "stackexchange" ∈ S)
      ∨ (x = "maniphest" ∧ "phabricator" ∈ S) := by
  unfold expandDataSources
  simp only [mem_applyRule, mboxes_sources, List.mem_cons, List.mem_singleton,
    List.not_mem_nil, exists_eq_or_imp, exists_eq_left]
  constructor
  · rintro (((((h | h) | h) | h) | h) | h) <;> simp_all
  · rintro (h | h | h | h | h | h) <;> simp_all

/-- C1: the data-source expansion performed before dashboard import is
idempotent at the level of the produced set of data sources
(`expandDataSources (expandDataSources S)` has the same members as
`expandDataSources S`; the source appends to a Python list, so duplicate
target entries may appear, but the requested collection is a set and list
equality is membership equality); every element of the input is kept, and
each implication rule (mailing-list backends imply `"mbox"`, `"supybot"`
implies `"irc"`, `"google_hits"` implies `"googlehits"`, `"stackexchange"`
implies `"stackoverflow"`, `"phabricator"` implies `"maniphest"`) fires as
soon as any of its triggers is present. -/
theorem expandDataSources_spec (S : List String) :
    (∀ x, x ∈ expandDataSources (expandDataSources S) ↔ x ∈ expandDataSources S) ∧
    (∀ x ∈ S, x ∈ expandDataSources S) ∧
    ((∃ y ∈ mboxes_sources, y ∈ S) → "mbox" ∈ expandDataSources S) ∧
    ("supybot" ∈ S → "irc" ∈ expandDataSources S) ∧
    ("google_hits" ∈ S → "googlehits" ∈ expandDataSources S) ∧
    ("stackexchange" ∈ S → "stackoverflow" ∈ expandDataSources S) ∧
    ("phabricator" ∈ S → "maniphest" ∈ expandDataSources S) := by
  refine ⟨?_, ?_, ?_, ?_, ?_, ?_, ?_⟩
  · have hp : ("pipermail" ∈ expandDataSources S ↔ "pipermail" ∈ S) := by
      rw [mem_expandDataSources]; simp
    have hh : ("hyperkitty" ∈ expandDataSources S ↔ "hyperkitty" ∈ S) := by
      rw [mem_expandDataSources]; simp
    have hg : ("groupsio" ∈ expandDataSources S ↔ "groupsio" ∈ S) := by
      rw [mem_expandDataSources]; simp
    have hn : ("nntp" ∈ expandDataSources S ↔ "nntp" ∈ S) := by
      rw [mem_expandDataSources]; simp
    have hs : ("supybot" ∈ expandDataSources S ↔ "supybot" ∈ S) := by
      rw [mem_expandDataSources]; simp
    have hgh : ("google_hits" ∈ expandDataSources S ↔ "google_hits" ∈ S) := by
      rw [mem_expandDataSources]; simp
    have hse : ("stackexchange" ∈ expandDataSources S ↔ "stackexchange" ∈ S) := by
      rw [mem_expandDataSources]; simp
    have hph : ("phabricator" ∈ expandDataSources S ↔ "phabricator" ∈ S) := by
      rw [mem_expandDataSources]; simp
    intro x
    rw [mem_expandDataSources x (expandDataSources S), hp, hh, hg, hn, hs, hgh,
      hse, hph, mem_expandDataSources x S]
    clear hp hh hg hn hs hgh hse hph
    constructor
    · rintro (h | h)
      · exact h
      · exact Or.inr h
    · exact Or.inl
  · intro x hx
    rw [mem_expandDataSources]; exact Or.inl hx
  · rintro ⟨y, hy, hyS⟩
    rw [mem_expandDataSources]
    have htrig : "pipermail" ∈ S ∨ "hyperkitty" ∈ S ∨ "groupsio" ∈ S ∨ "nntp" ∈ S := by
      simp only [mboxes_sources, List.mem_cons, List.not_mem_nil, or_false] at hy
      rcases hy with rfl | rfl | rfl | rfl <;> tauto
    exact Or.inr (Or.inl ⟨rfl, htrig⟩)
  · intro h; rw [mem_expandDataSources]; tauto
  · intro h; rw [mem_expandDataSources]; tauto
  · intro h; rw [mem_expandDataSources]; tauto
  · intro h; rw [mem_expandDataSources]; tauto

/-- Witness for `expandDataSources_spec` at the concrete input `["pipermail"]`:
the rule fires (`"mbox"` is added) and a second expansion adds no new member. -/
theorem expandDataSources_spec_witness :
    ("mbox" ∈ expandDataSources (expandDataSources ["pipermail"]) ↔
      "mbox" ∈ expandDataSources ["pipermail"]) ∧
    "mbox" ∈ expandDataSources ["pipermail"] :=
  ⟨(expandDataSources_spec ["pipermail"]).1 "mbox",
   (expandDataSources_spec ["pipermail"]).2.2.1 ⟨"pipermail", by decide, by decide⟩⟩

/-! ## Alias policy (`TaskPanelsAliases`, lines 319-476)

`TaskPanelsAliases.aliases` is a static dictionary mapping a data-source
identifier to optional lists of raw / enrich alias names.  An entry may
carry only one of the two keys (`"apache"` has only `"raw"`).
`__create_aliases` (lines 453-476) replaces `":"` with `"_"` in the backend
section name and then, per kind, uses the override list when the section has
an entry with that kind, and otherwise the default name (`real_alias + "-raw"`
for the raw index, `real_alias` for the enrich index). -/

/-- One entry of the `TaskPanelsAliases.aliases` dictionary: the optional
`"raw"` and `"enrich"` alias-name lists. -/
structure AliasOverride where
  raw : Option (List String)
  enrich : Option (List String)
deriving DecidableEq

/-- The `TaskPanelsAliases.aliases` dictionary (lines 323-396), keyed by
data-source identifier. -/
def aliases : List (String × AliasOverride) :=
  [("apache", ⟨some ["apache"], none⟩),
   ("bugzillarest", ⟨some ["bugzilla-raw"], some ["bugzilla"]⟩),
   ("dockerhub", ⟨some ["dockerhub-raw"], some ["dockerhub"]⟩),
   ("functest", ⟨some ["functest-raw"], some ["functest"]⟩),
   ("git", ⟨some ["git-raw"], some ["git", "git_author", "git_enrich"]⟩),
   ("github", ⟨some ["github-raw"],
     some ["github_issues", "github_issues_enrich", "issues_closed",
           "issues_created", "issues_updated"]⟩),
   ("google_hits", ⟨some ["google-hits-raw"], some ["google-hits"]⟩),
   ("jenkins", ⟨some ["jenkins-raw"], some ["jenkins", "jenkins_enrich"]⟩),
   ("mbox", ⟨some ["mbox-raw"], some ["mbox", "mbox_enrich", "kafka"]⟩),
   ("pipermail", ⟨some ["pipermail-raw"], some ["mbox", "mbox_enrich", "kafka"]⟩),
   ("hyperkitty", ⟨some ["hyperkitty-raw"], some ["mbox", "mbox_enrich", "kafka"]⟩),
   ("nntp", ⟨some ["nntp-raw"], some ["mbox", "mbox_enrich", "kafka"]⟩),
   ("groupsio", ⟨some ["groupsio-raw"], some ["mbox", "mbox_enrich", "kafka"]⟩),
   ("phabricator", ⟨some ["phabricator-raw"], some ["phabricator", "maniphest"]⟩),
   ("remo", ⟨some ["remo-raw"],
     some ["remo", "remo-events", "remo2-events", "remo-events_metadata__timestamp"]⟩),
   ("remo:activities", ⟨some ["remo_activities-raw"],
     some ["remo-activities", "remo2-activities", "remo-activities_metadata__timestamp"]⟩),
   ("stackexchange", ⟨some ["stackexchange-raw"], some ["stackoverflow"]⟩),
   ("supybot", ⟨some ["irc-raw"], some ["irc"]⟩)]

/-- Dictionary lookup `self.aliases[backend_section]` (with the membership
check `backend_section in self.aliases`). -/
def lookupAlias (bs : String) : Option AliasOverride :=
  (aliases.find? (fun p => p.1 == bs)).map Prod.snd

/-- `self.backend_section.replace(":", "_")` (line 455); the pattern is the
single character `":"`, so the replacement is a character-wise map. -/
def normalizeSource (s : String) : String :=
  String.mk (s.data.map (fun c => if c = ':' then '_' else c))

/-- The raw-index alias names that `__create_aliases` creates for a backend
section (lines 462-468): the `"raw"` override list if the section has one,
otherwise the single default `normalizeSource bs ++ "-raw"`. -/
def rawAliasesFor (bs : String) : List String :=
  match lookupAlias bs with
  | some ov =>
    match ov.raw with
    | some rs => rs
    | none => [normalizeSource bs ++ "-raw"]
  | none => [normalizeSource bs ++ "-raw"]

/-- The enrich-index alias names that `__create_aliases` creates for a
backend section (lines 470-476): the `"enrich"` override list if the section
has one, otherwise the single default `normalizeSource bs`. -/
def enrichAliasesFor (bs : String) : List String :=
  match lookupAlias bs with
  | some ov =>
    match ov.enrich with
    | some es => es
    | none => [normalizeSource bs]
  | none => [normalizeSource bs]

/-- C2: a data source with no `aliases` override gets exactly one raw alias
`normalizeSource bs ++ "-raw"` and exactly one enrich alias
`normalizeSource bs`; normalization replaces the `":"` namespace separator
with `"_"`, and the source `"remo:activities"` indeed yields the raw alias
`"remo_activities-raw"` (in the code via its override entry, whose value
coincides with the default naming). -/
theorem defaultAliases_spec (bs : String) (h : lookupAlias bs = none) :
    rawAliasesFor bs = [normalizeSource bs ++ "-raw"] ∧
    enrichAliasesFor bs = [normalizeSource bs] ∧
    normalizeSource "remo:activities" = "remo_activities" ∧
    rawAliasesFor "remo:activities" = ["remo_activities-raw"] := by
  unfold rawAliasesFor enrichAliasesFor
  rw [h]
  refine ⟨rfl, rfl, by decide, by decide⟩

/-- Witness for `defaultAliases_spec` at the concrete source `"gerrit"`,
which has no override entry. -/
theorem defaultAliases_spec_witness :
    rawAliasesFor "gerrit" = [normalizeSource "gerrit" ++ "-raw"] :=
  (defaultAliases_spec "gerrit" rfl).1

/-- C3 counterexample: `"apache"` has an `aliases` override entry, but that
entry carries no `"enrich"` list, so reconciliation still produces the
default enrich alias name `normalizeSource "apache" = "apache"` — override
presence for a source does not fully replace the defaults; only the kinds
actually listed in the entry are replaced.  This falsifies the claim that a
source with an override never receives any default-named alias. -/
theorem overrideAliases_apache_counterexample :
    lookupAlias "apache" = some ⟨some ["apache"], none⟩ ∧
    enrichAliasesFor "apache" = [normalizeSource "apache"] ∧
    enrichAliasesFor "apache" = ["apache"] := by
  refine ⟨rfl, rfl, rfl⟩

/-- C3 (amended): for each alias kind (raw / enrich) for which the override
entry of a data source provides a list, reconciliation produces exactly that
list and not additionally the default name; a kind missing from the entry
falls back to the default.  In particular `"pipermail"` gets exactly the
enrich aliases `["mbox", "mbox_enrich", "kafka"]` and exactly the raw alias
`["pipermail-raw"]`. -/
theorem overrideAliases_spec (bs : String) (ov : AliasOverride)
    (h : lookupAlias bs = some ov) :
    (∀ rs, ov.raw = some rs → rawAliasesFor bs = rs) ∧
    (∀ es, ov.enrich = some es → enrichAliasesFor bs = es) ∧
    (ov.raw = none → rawAliasesFor bs = [normalizeSource bs ++ "-raw"]) ∧
    (ov.enrich = none → enrichAliasesFor bs = [normalizeSource bs]) ∧
    enrichAliasesFor "pipermail" = ["mbox", "mbox_enrich", "kafka"] ∧
    rawAliasesFor "pipermail" = ["pipermail-raw"] := by
  unfold rawAliasesFor enrichAliasesFor
  rw [h]
  refine ⟨?_, ?_, ?_, ?_, rfl, rfl⟩
  · intro rs hrs; simp only [hrs]
  · intro es hes; simp only [hes]
  · intro hn; simp only [hn]
  · intro hn; simp only [hn]

/-- Witness for `overrideAliases_spec` at the concrete source `"pipermail"`. -/
theorem overrideAliases_spec_witness :
    enrichAliasesFor "pipermail" = ["mbox", "mbox_enrich", "kafka"] :=
  (overrideAliases_spec "pipermail"
    ⟨some ["pipermail-raw"], some ["mbox", "mbox_enrich", "kafka"]⟩ rfl).2.1
    ["mbox", "mbox_enrich", "kafka"] rfl

/-! ## Alias creation against the backend (`__exists_alias`, `__create_alias`,
lines 398-451)

The backend is modelled by the set of existing indices and the current
alias table (pairs `(alias, index)`).  `GET _alias/<alias>` answers 200
exactly when the alias exists (`__exists_alias`).  `POST _aliases` with an
`add` action answers 200 and records the alias when the target index
exists, and 404 when it does not.  `res.raise_for_status()` raises
`HTTPError` exactly for statuses 400-599; `__create_alias` catches it,
logs a warning, swallows the 404 case (enriched index not produced yet)
and re-raises every other error status. -/

/-- Backend state: existing indices and the alias table. -/
structure ESState where
  indices : List String
  aliasTable : List (String × String)
deriving DecidableEq

/-- `__exists_alias` (lines 398-406): the lookup request answers 200 iff the
alias is present, regardless of which index owns it. -/
def exists_alias (st : ESState) (al : String) : Bool :=
  st.aliasTable.any (fun p => p.1 == al)

/-- The `POST _aliases` add action: 200 and an extended alias table when the
target index exists, 404 and no change when it does not. -/
def post_add_alias (st : ESState) (es_index al : String) : ESState × Nat :=
  if es_index ∈ st.indices then
    ({ st with aliasTable := st.aliasTable ++ [(al, es_index)] }, 200)
  else (st, 404)

/-- Statuses for which `requests.Response.raise_for_status` raises
`HTTPError`. -/
abbrev isHTTPErrorStatus (status : Nat) : Prop := 400 ≤ status ∧ status < 600

/-- Observable outcome of one `__create_alias` call. -/
inductive CreateOutcome where
  | ok
  | warned
  | raised
deriving DecidableEq

/-- The `try/except` classification at the end of `__create_alias`
(lines 442-451): non-error statuses succeed; an error status is logged as a
warning, then 404 (index not found) returns normally and every other error
status re-raises. -/
def classify_create_response (status : Nat) : CreateOutcome :=
  if isHTTPErrorStatus status then
    if status = 404 then CreateOutcome.warned else CreateOutcome.raised
  else CreateOutcome.ok

/-- `__create_alias` (lines 426-451): return immediately when the alias
already exists, otherwise issue the add action and classify its response. -/
def create_alias (st : ESState) (es_index al : String) : ESState × CreateOutcome :=
  if exists_alias st al then (st, CreateOutcome.ok)
  else
    let r := post_add_alias st es_index al
    (r.1, classify_create_response r.2)

/-- C4: `__create_alias` is idempotent — when the first call does not raise,
a second call with the same `(index, alias)` arguments leaves the backend
state produced by the first call unchanged and does not raise either; and
whenever the alias already exists (no matter which index it points at), the
call returns successfully without modifying the backend. -/
theorem create_alias_idempotent (st : ESState) (i a : String)
    (h : (create_alias st i a).2 ≠ CreateOutcome.raised) :
    (create_alias (create_alias st i a).1 i a).1 = (create_alias st i a).1 ∧
    (create_alias (create_alias st i a).1 i a).2 ≠ CreateOutcome.raised ∧
    (exists_alias st a = true → create_alias st i a = (st, CreateOutcome.ok)) := by
  by_cases hex : exists_alias st a = true
  · simp [create_alias, hex]
  · have hex' : exists_alias st a = false := by
      cases hfe : exists_alias st a
      · rfl
      · exact absurd hfe hex
    by_cases hidx : i ∈ st.indices
    · have hstep : create_alias st i a =
          ({ st with aliasTable := st.aliasTable ++ [(a, i)] }, CreateOutcome.ok) := by
        simp [create_alias, hex', post_add_alias, hidx, classify_create_response,
          isHTTPErrorStatus]
      have hex2 : exists_alias { st with aliasTable := st.aliasTable ++ [(a, i)] } a = true := by
        simp [exists_alias]
      rw [hstep]
      simp [create_alias, hex2, hex']
    · have hstep : create_alias st i a = (st, CreateOutcome.warned) := by
        simp [create_alias, hex', post_add_alias, hidx, classify_create_response,
          isHTTPErrorStatus]
      rw [hstep]
      simp [hstep, hex']

/-- Witness for `create_alias_idempotent`: a backend with one index and an
alias `"al"` already pointing at a different index `"other"`. -/
theorem create_alias_idempotent_witness :
    create_alias ⟨["idx"], [("al", "other")]⟩ "idx" "al" =
      (⟨["idx"], [("al", "other")]⟩, CreateOutcome.ok) :=
  (create_alias_idempotent ⟨["idx"], [("al", "other")]⟩ "idx" "al"
    (by decide)).2.2 (by decide)

/-- C5: alias-creation failures are classified by HTTP status — an error
status of 404 (index not found) only warns and the call returns normally,
while every other HTTP error status re-raises and propagates; non-error
statuses succeed. -/
theorem create_alias_error_classification (status : Nat)
    (h : isHTTPErrorStatus status) :
    (status = 404 → classify_create_response status = CreateOutcome.warned) ∧
    (status ≠ 404 → classify_create_response status = CreateOutcome.raised) := by
  constructor
  · intro h404
    simp [classify_create_response, h, h404]
  · intro hne
    simp [classify_create_response, h, hne]

/-- Witness for `create_alias_error_classification` at statuses 404 and 500. -/
theorem create_alias_error_classification_witness :
    classify_create_response 404 = CreateOutcome.warned ∧
    classify_create_response 500 = CreateOutcome.raised :=
  ⟨(create_alias_error_classification 404 (by decide)).1 rfl,
   (create_alias_error_classification 500 (by decide)).2 (by decide)⟩

/-! ## Menu construction (`TaskPanelsMenu`, lines 485-683)

`__get_menu_entries` and `__get_dash_menu` build Python `OrderedDict`s.
An `OrderedDict` is embedded as an association list; assignment `d[k] = v`
replaces the value in place when the key is already present (keeping its
position) and appends `(k, v)` otherwise (`odInsert`).  A menu value is
either a dashboard identifier (flattened generation `"4"`) or a nested
ordered mapping of subsection name to dashboard identifier.
`get_dashboard_name` reads the panel file store and is modelled as a
function `String → Option String`, `none` standing for the
`FileNotFoundError` that `__get_menu_entries` catches and skips. -/

/-- A value of the menu `OrderedDict`: a dashboard identifier leaf or a
nested ordered mapping. -/
inductive MenuVal where
  | leaf (dash : String)
  | sub (entries : List (String × String))
deriving DecidableEq

/-- One element of a catalog entry's `menu` list: `{'name': ..., 'panel': ...}`. -/
structure MenuSubEntry where
  name : String
  panel : String
deriving DecidableEq

/-- One catalog entry of `panels_menu`: `{'name': ..., 'source': ..., 'menu': [...]}`. -/
structure MenuEntry where
  name : String
  source : String
  menu : List MenuSubEntry
deriving DecidableEq

/-- The keys of an ordered mapping, in order. -/
def odKeys {V : Type} (d : List (String × V)) : List String := d.map Prod.fst

/-- `OrderedDict` assignment `d[k] = v`: replace in place if the key exists,
append otherwise. -/
def odInsert {V : Type} (d : List (String × V)) (k : String) (v : V) :
    List (String × V) :=
  if k ∈ odKeys d then d.map (fun p => if p.1 = k then (p.1, v) else p)
  else d ++ [(k, v)]

/-- Processing of one subentry inside the loop of `__get_menu_entries`
(lines 630-640): a failed `get_dashboard_name` lookup skips the item; for
generation `"4"` the dashboard name becomes a flat key, otherwise the item
is stored in the nested mapping under the surrounding entry's name. -/
def addSubEntry (getName : String → Option String) (kibiter_major : String)
    (entryName : String) (me : List (String × MenuVal)) (sub : MenuSubEntry) :
    List (String × MenuVal) :=
  match getName sub.panel with
  | none => me
  | some dash_name =>
    if kibiter_major = "4" then odInsert me dash_name (MenuVal.leaf dash_name)
    else
      me.map (fun p =>
        if p.1 = entryName then
          (p.1, match p.2 with
                | MenuVal.sub m => MenuVal.sub (odInsert m sub.name dash_name)
                | v => v)
        else p)

/-- Processing of one catalog entry in `__get_menu_entries` (lines 625-640):
inactive sources are skipped; for non-flattened generations the entry's name
is first bound to a fresh empty nested mapping, then the subentries are
processed. -/
def processEntry (getName : String → Option String) (data_sources : List String)
    (kibiter_major : String) (me : List (String × MenuVal)) (entry : MenuEntry) :
    List (String × MenuVal) :=
  if entry.source ∈ data_sources then
    entry.menu.foldl (addSubEntry getName kibiter_major entry.name)
      (if kibiter_major ≠ "4" then odInsert me entry.name (MenuVal.sub []) else me)
  else me

/-- `__get_menu_entries` (lines 622-642). -/
def get_menu_entries (getName : String → Option String) (panels_menu : List MenuEntry)
    (data_sources : List String) (kibiter_major : String) : List (String × MenuVal) :=
  panels_menu.foldl (processEntry getName data_sources kibiter_major) []

/-- `entry.replace("-", " ")` (line 656); single-character pattern, hence a
character-wise map. -/
def dashToSpace (s : String) : String :=
  String.mk (s.data.map (fun c => if c = '-' then ' ' else c))

/-- `__get_dash_menu` (lines 644-667): start from the fixed `"Overview"`
entry, merge in the data-source menu (flattening the keys with
`dashToSpace` for generation `"4"`, keeping the two-level entries
otherwise; `omenu.update(ds_menu)` assigns key by key), then assign the
fixed `"Data Status"` and `"About"` entries. -/
def get_dash_menu (getName : String → Option String) (panels_menu : List MenuEntry)
    (data_sources : List String) (kibiter_major : String) : List (String × MenuVal) :=
  odInsert
    (odInsert
      (if kibiter_major = "4" then
        (get_menu_entries getName panels_menu data_sources kibiter_major).foldl
          (fun om p => odInsert om (dashToSpace p.1) p.2)
          (odInsert [] "Overview" (MenuVal.leaf "Overview"))
      else
        (get_menu_entries getName panels_menu data_sources kibiter_major).foldl
          (fun om p => odInsert om p.1 p.2)
          (odInsert [] "Overview" (MenuVal.leaf "Overview")))
      "Data Status" (MenuVal.leaf "Data-Status"))
    "About" (MenuVal.leaf "About")

@[simp] theorem odKeys_nil {V : Type} : odKeys ([] : List (String × V)) = [] := rfl

@[simp] theorem odKeys_cons {V : Type} (p : String × V) (d : List (String × V)) :
    odKeys (p :: d) = p.1 :: odKeys d := rfl

@[simp] theorem odKeys_append {V : Type} (d e : List (String × V)) :
    odKeys (d ++ e) = odKeys d ++ odKeys e := by
  simp [odKeys]

theorem odInsert_of_not_mem {V : Type} {d : List (String × V)} {k : String} (v : V)
    (h : k ∉ odKeys d) : odInsert d k v = d ++ [(k, v)] := by
  unfold odInsert
  rw [if_neg h]

theorem mem_odInsert_self {V : Type} (d : List (String × V)) (k : String) (v : V) :
    (k, v) ∈ odInsert d k v := by
  unfold odInsert
  split
  · next h =>
      simp only [odKeys, List.mem_map] at h
      obtain ⟨p, hp, hpk⟩ := h
      refine List.mem_map.2 ⟨p, hp, ?_⟩
      rw [if_pos hpk, hpk]
  · exact List.mem_append_right _ (List.mem_singleton.2 rfl)

/-- Folding `OrderedDict` assignment over fresh, pairwise-distinct keys is
plain list append. -/
theorem foldl_odInsert_append {V : Type} (ps : List (String × V)) :
    ∀ d : List (String × V), (∀ p ∈ ps, p.1 ∉ odKeys d) → (odKeys ps).Nodup →
      ps.foldl (fun om p => odInsert om p.1 p.2) d = d ++ ps := by
  induction ps with
  | nil => intro d _ _; simp
  | cons p ps ih =>
    intro d hdis hnd
    rw [List.foldl_cons, odInsert_of_not_mem p.2 (hdis p (List.mem_cons_self p ps)),
      ih (d ++ [p]) ?_ ?_]
    · simp
    · intro q hq
      have h1 := hdis q (List.mem_cons_of_mem p hq)
      have hnp : p.1 ∉ odKeys ps := (List.nodup_cons.1 (by simpa using hnd)).1
      have h2 : q.1 ≠ p.1 := fun he => hnp (he ▸ List.mem_map.2 ⟨q, hq, rfl⟩)
      intro hc
      rcases (by simpa using hc : q.1 ∈ odKeys d ∨ q.1 = p.1) with hc' | hc'
      · exact h1 hc'
      · exact h2 hc'
    · exact (List.nodup_cons.1 (by simpa using hnd)).2

theorem odKeys_map_preserve {V : Type} (f : String × V → String × V)
    (hf : ∀ p, (f p).1 = p.1) (d : List (String × V)) :
    odKeys (d.map f) = odKeys d := by
  induction d with
  | nil => rfl
  | cons p d ih => simp only [List.map_cons, odKeys_cons, ih, hf p]

/-- For a non-flattened generation, processing one subentry never changes the
key list of the outer mapping. -/
theorem odKeys_addSubEntry {getName : String → Option String} {g : String}
    (hg : g ≠ "4") (ename : String) (me : List (String × MenuVal))
    (s : MenuSubEntry) :
    odKeys (addSubEntry getName g ename me s) = odKeys me := by
  unfold addSubEntry
  split
  · rfl
  · rw [if_neg hg]
    exact odKeys_map_preserve _ (fun p => by by_cases hpe : p.1 = ename <;> simp [hpe]) me

theorem odKeys_foldl_addSubEntry {getName : String → Option String} {g : String}
    (hg : g ≠ "4") (ename : String) (subs : List MenuSubEntry) :
    ∀ me, odKeys (subs.foldl (addSubEntry getName g ename) me) = odKeys me := by
  induction subs with
  | nil => intro me; rfl
  | cons s subs ih =>
    intro me
    rw [List.foldl_cons, ih, odKeys_addSubEntry hg]

/-- The names of the catalog entries whose source is active, in declaration
order. -/
def activeNames (pm : List MenuEntry) (ds : List String) : List String :=
  (pm.filter (fun e => decide (e.source ∈ ds))).map MenuEntry.name

theorem activeNames_cons_active {e : MenuEntry} {ds : List String}
    (pm : List MenuEntry) (h : e.source ∈ ds) :
    activeNames (e :: pm) ds = e.name :: activeNames pm ds := by
  simp [activeNames, List.filter_cons, h]

theorem activeNames_cons_inactive {e : MenuEntry} {ds : List String}
    (pm : List MenuEntry) (h : e.source ∉ ds) :
    activeNames (e :: pm) ds = activeNames pm ds := by
  simp [activeNames, List.filter_cons, h]

/-- For a non-flattened generation the keys produced by `__get_menu_entries`
are exactly the active entries' names in declaration order (provided those
names are fresh and pairwise distinct). -/
theorem odKeys_get_menu_entries_aux {getName : String → Option String}
    {ds : List String} {g : String} (hg : g ≠ "4") (pm : List MenuEntry) :
    ∀ me : List (String × MenuVal),
      (∀ e ∈ pm, e.source ∈ ds → e.name ∉ odKeys me) →
      (activeNames pm ds).Nodup →
      odKeys (pm.foldl (processEntry getName ds g) me) = odKeys me ++ activeNames pm ds := by
  induction pm with
  | nil => intro me _ _; simp [activeNames]
  | cons e pm ih =>
    intro me hfresh hnd
    rw [List.foldl_cons]
    by_cases hact : e.source ∈ ds
    · have h1 : odKeys (processEntry getName ds g me e) = odKeys me ++ [e.name] := by
        unfold processEntry
        rw [if_pos hact, if_pos hg, odKeys_foldl_addSubEntry hg,
          odInsert_of_not_mem _ (hfresh e (List.mem_cons_self e pm) hact)]
        simp
      rw [ih (processEntry getName ds g me e) ?_ ?_, h1, activeNames_cons_active pm hact]
      · simp
      · intro y hy hya
        rw [h1]
        have hy1 := hfresh y (List.mem_cons_of_mem e hy) hya
        have hy2 : y.name ≠ e.name := by
          rw [activeNames_cons_active pm hact] at hnd
          have hen : e.name ∉ activeNames pm ds := (List.nodup_cons.1 hnd).1
          intro he
          refine hen (he ▸ ?_)
          exact List.mem_map.2 ⟨y, List.mem_filter.2 ⟨hy, by simpa using hya⟩, rfl⟩
        intro hc
        rcases (by simpa using hc : y.name ∈ odKeys me ∨ y.name = e.name) with hc' | hc'
        · exact hy1 hc'
        · exact hy2 hc'
      · rw [activeNames_cons_active pm hact] at hnd
        exact (List.nodup_cons.1 hnd).2
    · have h1 : processEntry getName ds g me e = me := by
        unfold processEntry
        rw [if_neg hact]
      rw [h1, ih me ?_ ?_, activeNames_cons_inactive pm hact]
      · intro y hy hya
        exact hfresh y (List.mem_cons_of_mem e hy) hya
      · rw [activeNames_cons_inactive pm hact] at hnd
        exact hnd

/-- The menu keys contributed by the catalog, as they end up in the final
menu: for generation `"4"` the flattened dashboard names with `"-"`
replaced by `" "`, otherwise the two-level entry names. -/
def dsMenuKeys (getName : String → Option String) (pm : List MenuEntry)
    (ds : List String) (g : String) : List String :=
  if g = "4" then
    (odKeys (get_menu_entries getName pm ds g)).map dashToSpace
  else odKeys (get_menu_entries getName pm ds g)

theorem odKeys_map_fst {V : Type} (f : String → String) (l : List (String × V)) :
    odKeys (l.map (fun p => (f p.1, p.2))) = (odKeys l).map f := by
  induction l with
  | nil => rfl
  | cons p l ih => simp only [List.map_cons, odKeys_cons, ih]

theorem foldl_odInsert_mapkey {V : Type} (f : String → String) (ps : List (String × V)) :
    ∀ d, ps.foldl (fun om p => odInsert om (f p.1) p.2) d
      = (ps.map (fun p => (f p.1, p.2))).foldl (fun om p => odInsert om p.1 p.2) d := by
  induction ps with
  | nil => intro d; rfl
  | cons p ps ih => intro d; rw [List.foldl_cons, List.map_cons, List.foldl_cons, ih]

/-- C6 counterexample: `OrderedDict` assignment replaces in place, so a
catalog entry named `"Data Status"` followed by another entry makes the
final `omenu["Data Status"] = ...` assignment land in the middle of the
menu instead of appending: the built menu's keys are
`["Overview", "Data Status", "Git2", "About"]`, whose last two keys are not
`"Data Status"` then `"About"`.  The claim fails for such catalogs. -/
theorem dash_menu_fixed_keys_counterexample :
    odKeys (get_dash_menu (fun _ => none)
        [⟨"Data Status", "git", []⟩, ⟨"Git2", "mail", []⟩] ["git", "mail"] "6")
      = ["Overview", "Data Status", "Git2", "About"] := by decide

/-- C6 (amended): for every non-empty resolved catalog whose catalog-derived
menu keys (entry names in the two-level shape, dashboard names with `"-"`
replaced by `" "` in the flat shape) are pairwise distinct and different from
the fixed keys `"Overview"`, `"Data Status"` and `"About"`, the built menu's
first key is `"Overview"`, its last two keys are `"Data Status"` then
`"About"`, and the catalog-driven keys sit strictly between them; in the
two-level shape those keys are the active entries' names in catalog
declaration order. -/
theorem dash_menu_fixed_keys (getName : String → Option String)
    (pm : List MenuEntry) (ds : List String) (g : String)
    (hne : pm ≠ [])
    (hnd : (dsMenuKeys getName pm ds g).Nodup)
    (h1 : "Overview" ∉ dsMenuKeys getName pm ds g)
    (h2 : "Data Status" ∉ dsMenuKeys getName pm ds g)
    (h3 : "About" ∉ dsMenuKeys getName pm ds g) :
    odKeys (get_dash_menu getName pm ds g) =
      "Overview" :: (dsMenuKeys getName pm ds g ++ ["Data Status", "About"]) ∧
    (g ≠ "4" → (activeNames pm ds).Nodup →
      dsMenuKeys getName pm ds g = activeNames pm ds) := by
  constructor
  · have hbase : odInsert ([] : List (String × MenuVal)) "Overview"
        (MenuVal.leaf "Overview") = [("Overview", MenuVal.leaf "Overview")] := rfl
    by_cases hg : g = "4"
    · subst hg
      have hd4 : dsMenuKeys getName pm ds "4"
          = (odKeys (get_menu_entries getName pm ds "4")).map dashToSpace := by
        rw [dsMenuKeys, if_pos rfl]
      rw [hd4] at h1 h2 h3 hnd ⊢
      unfold get_dash_menu
      rw [if_pos rfl, hbase]
      set E := get_menu_entries getName pm ds "4" with hE
      set ps := E.map (fun p => (dashToSpace p.1, p.2)) with hps
      have hkeys : odKeys ps = (odKeys E).map dashToSpace := odKeys_map_fst _ _
      have hfold : E.foldl (fun om p => odInsert om (dashToSpace p.1) p.2)
            [("Overview", MenuVal.leaf "Overview")]
          = [("Overview", MenuVal.leaf "Overview")] ++ ps := by
        rw [foldl_odInsert_mapkey, ← hps]
        apply foldl_odInsert_append
        · intro p hp hc
          have hp1 : p.1 ∈ odKeys ps := List.mem_map.2 ⟨p, hp, rfl⟩
          rw [hkeys] at hp1
          have hov : p.1 = "Overview" := by simpa using hc
          exact h1 (hov ▸ hp1)
        · rw [hkeys]; exact hnd
      rw [hfold]
      have hds : "Data Status" ∉
          odKeys ([("Overview", MenuVal.leaf "Overview")] ++ ps) := by
        rw [odKeys_append, hkeys]
        intro hc
        rcases (by simpa using hc :
            "Data Status" = "Overview" ∨
              "Data Status" ∈ (odKeys E).map dashToSpace) with hc' | hc'
        · exact absurd hc' (by decide)
        · exact h2 hc'
      rw [odInsert_of_not_mem _ hds]
      have hab : "About" ∉
          odKeys (([("Overview", MenuVal.leaf "Overview")] ++ ps)
            ++ [("Data Status", MenuVal.leaf "Data-Status")]) := by
        rw [odKeys_append, odKeys_append, hkeys]
        intro hc
        rcases (by simpa using hc :
            ("About" = "Overview" ∨ "About" ∈ (odKeys E).map dashToSpace)
              ∨ "About" = "Data Status") with (hc' | hc') | hc'
        · exact absurd hc' (by decide)
        · exact h3 hc'
        · exact absurd hc' (by decide)
      rw [odInsert_of_not_mem _ hab]
      simp [hkeys]
    · have hd : dsMenuKeys getName pm ds g
          = odKeys (get_menu_entries getName pm ds g) := by
        rw [dsMenuKeys, if_neg hg]
      rw [hd] at h1 h2 h3 hnd ⊢
      unfold get_dash_menu
      rw [if_neg hg, hbase]
      set E := get_menu_entries getName pm ds g with hE
      have hfold : E.foldl (fun om p => odInsert om p.1 p.2)
            [("Overview", MenuVal.leaf "Overview")]
          = [("Overview", MenuVal.leaf "Overview")] ++ E := by
        apply foldl_odInsert_append
        · intro p hp hc
          have hp1 : p.1 ∈ odKeys E := List.mem_map.2 ⟨p, hp, rfl⟩
          have hov : p.1 = "Overview" := by simpa using hc
          exact h1 (hov ▸ hp1)
        · exact hnd
      rw [hfold]
      have hds : "Data Status" ∉
          odKeys ([("Overview", MenuVal.leaf "Overview")] ++ E) := by
        rw [odKeys_append]
        intro hc
        rcases (by simpa using hc :
            "Data Status" = "Overview" ∨ "Data Status" ∈ odKeys E) with hc' | hc'
        · exact absurd hc' (by decide)
        · exact h2 hc'
      rw [odInsert_of_not_mem _ hds]
      have hab : "About" ∉
          odKeys (([("Overview", MenuVal.leaf "Overview")] ++ E)
            ++ [("Data Status", MenuVal.leaf "Data-Status")]) := by
        rw [odKeys_append, odKeys_append]
        intro hc
        rcases (by simpa using hc :
            ("About" = "Overview" ∨ "About" ∈ odKeys E)
              ∨ "About" = "Data Status") with (hc' | hc') | hc'
        · exact absurd hc' (by decide)
        · exact h3 hc'
        · exact absurd hc' (by decide)
      rw [odInsert_of_not_mem _ hab]
      simp
  · intro hg hndA
    rw [dsMenuKeys, if_neg hg]
    unfold get_menu_entries
    have haux := @odKeys_get_menu_entries_aux getName ds g hg pm []
      (by intro e _ _; simp) hndA
    simpa using haux

/-- Witness for `dash_menu_fixed_keys`: a one-entry catalog named `"Git"`
with no panel files, generation `"6"`. -/
theorem dash_menu_fixed_keys_witness :
    odKeys (get_dash_menu (fun _ => none) [⟨"Git", "git", []⟩] ["git"] "6")
      = "Overview" :: (dsMenuKeys (fun _ => none) [⟨"Git", "git", []⟩] ["git"] "6"
          ++ ["Data Status", "About"]) :=
  (dash_menu_fixed_keys (fun _ => none) [⟨"Git", "git", []⟩] ["git"] "6"
    (by decide) (by decide) (by decide) (by decide) (by decide)).1

/-- The panel file store of the C7 scenario: the `"Git"` entry's panel is a
dashboard named `"Git-Overview"`, the `"Mail"` entry's panel one named
`"Mail-Threads"`. -/
def scenarioGetName : String → Option String := fun p =>
  if p = "git_panel" then some "Git-Overview"
  else if p = "mail_panel" then some "Mail-Threads"
  else none

/-- C7: building the menu for generation `"4"` with the two catalog entries
`{"Git": ["Overview"]}` and `{"Mail": ["Threads"]}` yields exactly the flat
keys `["Overview", "Git Overview", "Mail Threads", "Data Status", "About"]`
in that order: the `"-"` namespace separator of each dashboard name is
replaced by a space in the synthetic flat key, and the fixed first
`"Overview"` key is distinct (by position and by name) from the
per-entry `"Overview"`-derived key `"Git Overview"`. -/
theorem dash_menu_generation4_scenario :
    get_dash_menu scenarioGetName
        [⟨"Git", "git", [⟨"Overview", "git_panel"⟩]⟩,
         ⟨"Mail", "mail", [⟨"Threads", "mail_panel"⟩]⟩]
        ["git", "mail"] "4"
      = [("Overview", MenuVal.leaf "Overview"),
         ("Git Overview", MenuVal.leaf "Git-Overview"),
         ("Mail Threads", MenuVal.leaf "Mail-Threads"),
         ("Data Status", MenuVal.leaf "Data-Status"),
         ("About", MenuVal.leaf "About")] ∧
    odKeys (get_dash_menu scenarioGetName
        [⟨"Git", "git", [⟨"Overview", "git_panel"⟩]⟩,
         ⟨"Mail", "mail", [⟨"Threads", "mail_panel"⟩]⟩]
        ["git", "mail"] "4")
      = ["Overview", "Git Overview", "Mail Threads", "Data Status", "About"] := by
  constructor
  · decide
  · decide

/-- C10 counterexample: with two active entries that share the top-level name
`"Dup"` — the first with a panel file that fails to load, the second with one
that loads — the key `"Dup"` ends up mapped to the second entry's non-empty
submenu, so the first (all-failing) entry does not appear as a key mapped to
an empty submenu. -/
theorem menu_entry_empty_submenu_counterexample :
    ((⟨"Dup", "git", [⟨"S", "missing"⟩]⟩ : MenuEntry).menu.all
        (fun s => ((fun p => if p = "okpanel" then some "X" else none) s.panel).isNone)
      = true) ∧
    get_menu_entries (fun p => if p = "okpanel" then some "X" else none)
        [⟨"Dup", "git", [⟨"S", "missing"⟩]⟩, ⟨"Dup", "mail", [⟨"T", "okpanel"⟩]⟩]
        ["git", "mail"] "6"
      = [("Dup", MenuVal.sub [("T", "X")])] ∧
    ("Dup", MenuVal.sub []) ∉
      get_menu_entries (fun p => if p = "okpanel" then some "X" else none)
        [⟨"Dup", "git", [⟨"S", "missing"⟩]⟩, ⟨"Dup", "mail", [⟨"T", "okpanel"⟩]⟩]
        ["git", "mail"] "6" := by
  refine ⟨by decide, by decide, by decide⟩

theorem foldl_addSubEntry_none (getName : String → Option String) (g ename : String) :
    ∀ (subs : List MenuSubEntry) (me : List (String × MenuVal)),
      (∀ s ∈ subs, getName s.panel = none) →
      subs.foldl (addSubEntry getName g ename) me = me := by
  intro subs
  induction subs with
  | nil => intro me _; rfl
  | cons s subs ih =>
    intro me hfail
    rw [List.foldl_cons]
    have h1 : addSubEntry getName g ename me s = me := by
      unfold addSubEntry
      rw [hfail s (List.mem_cons_self s subs)]
    rw [h1]
    exact ih me (fun x hx => hfail x (List.mem_cons_of_mem s hx))

theorem mem_addSubEntry_of_ne {getName : String → Option String} {g : String}
    (hg : g ≠ "4") {ename k : String} {v : MenuVal} (hk : k ≠ ename)
    (me : List (String × MenuVal)) (h : (k, v) ∈ me) (s : MenuSubEntry) :
    (k, v) ∈ addSubEntry getName g ename me s := by
  unfold addSubEntry
  split
  · exact h
  · rw [if_neg hg]
    refine List.mem_map.2 ⟨(k, v), h, ?_⟩
    rw [if_neg hk]

theorem mem_foldl_addSubEntry_of_ne {getName : String → Option String} {g : String}
    (hg : g ≠ "4") {ename k : String} {v : MenuVal} (hk : k ≠ ename) :
    ∀ (subs : List MenuSubEntry) (me : List (String × MenuVal)),
      (k, v) ∈ me → (k, v) ∈ subs.foldl (addSubEntry getName g ename) me := by
  intro subs
  induction subs with
  | nil => intro me h; exact h
  | cons s subs ih =>
    intro me h
    rw [List.foldl_cons]
    exact ih _ (mem_addSubEntry_of_ne hg hk me h s)

theorem mem_processEntry_of_ne {getName : String → Option String}
    {ds : List String} {g : String} (hg : g ≠ "4") {k : String} {v : MenuVal}
    (e : MenuEntry) (hk : e.source ∈ ds → k ≠ e.name)
    (me : List (String × MenuVal)) (h : (k, v) ∈ me) :
    (k, v) ∈ processEntry getName ds g me e := by
  unfold processEntry
  by_cases hact : e.source ∈ ds
  · rw [if_pos hact, if_pos hg]
    have hne := hk hact
    refine mem_foldl_addSubEntry_of_ne hg hne e.menu _ ?_
    unfold odInsert
    split
    · refine List.mem_map.2 ⟨(k, v), h, ?_⟩
      rw [if_neg hne]
    · exact List.mem_append_left _ h
  · rw [if_neg hact]
    exact h

theorem mem_foldl_processEntry_of_ne {getName : String → Option String}
    {ds : List String} {g : String} (hg : g ≠ "4") {k : String} {v : MenuVal} :
    ∀ (l : List MenuEntry) (me : List (String × MenuVal)),
      (∀ y ∈ l, y.source ∈ ds → y.name ≠ k) →
      (k, v) ∈ me → (k, v) ∈ l.foldl (processEntry getName ds g) me := by
  intro l
  induction l with
  | nil => intro me _ h; exact h
  | cons y l ih =>
    intro me hl h
    rw [List.foldl_cons]
    refine ih _ (fun z hz => hl z (List.mem_cons_of_mem y hz)) ?_
    exact mem_processEntry_of_ne hg y
      (fun hact => (hl y (List.mem_cons_self y l) hact).symm) me h

/-- C10 (amended): for every non-flattened generation, an active catalog
entry's top-level key is inserted (bound to an empty submenu) before any of
its panel files are loaded, so an active entry whose every panel file fails
to load still appears in `__get_menu_entries`' result as a key mapped to the
empty submenu — provided no later active entry shares its name (a later
same-named active entry re-binds the key, as the counterexample shows). -/
theorem menu_entry_empty_submenu (getName : String → Option String)
    (pm l1 l2 : List MenuEntry) (e : MenuEntry) (ds : List String) (g : String)
    (hg : g ≠ "4") (hpm : pm = l1 ++ e :: l2)
    (hact : e.source ∈ ds)
    (hfail : ∀ s ∈ e.menu, getName s.panel = none)
    (hlater : ∀ y ∈ l2, y.source ∈ ds → y.name ≠ e.name) :
    (e.name, MenuVal.sub []) ∈ get_menu_entries getName pm ds g := by
  subst hpm
  unfold get_menu_entries
  rw [List.foldl_append, List.foldl_cons]
  refine mem_foldl_processEntry_of_ne hg l2 _ hlater ?_
  unfold processEntry
  rw [if_pos hact, if_pos hg, foldl_addSubEntry_none getName g e.name e.menu _ hfail]
  exact mem_odInsert_self _ _ _

/-- Witness for `menu_entry_empty_submenu`: a single active entry whose only
panel file is missing, generation `"6"`. -/
theorem menu_entry_empty_submenu_witness :
    ("Solo", MenuVal.sub []) ∈
      get_menu_entries (fun _ => none) [⟨"Solo", "git", [⟨"S", "p"⟩]⟩] ["git"] "6" :=
  menu_entry_empty_submenu (fun _ => none) [⟨"Solo", "git", [⟨"S", "p"⟩]⟩] [] []
    ⟨"Solo", "git", [⟨"S", "p"⟩]⟩ ["git"] "6" (by decide) rfl (by decide)
    (by intro s hs; rfl) (by intro y hy; cases hy)

/-! ## Generation probe (`TaskPanels.__kibiter_version`, lines 130-167)

The probe issues a search for the config document and reads
`res.json()['hits']['hits'][0]['_id']`.  A response is modelled by its HTTP
status and the list of `_id` values in `hits.hits`.  For major `"6"` the
whole body is wrapped in `except Exception`, so any failure (HTTP error,
empty hit list, an `_id` without a `":"` separator) is logged and `None` is
returned.  For every other major only `requests.exceptions.HTTPError` is
caught: an error status is logged and `None` returned, but a successful
response with an empty hit list raises an uncaught `IndexError` at
`hits[0]`, which escapes the call. -/

/-- A probe response: HTTP status and the `_id` values of `hits.hits`. -/
structure ProbeResponse where
  status : Nat
  hits : List String
deriving DecidableEq

/-- Observable result of `__kibiter_version`: a version string, `None`
(after logging), or an exception escaping the call. -/
inductive ProbeResult where
  | found (version : String)
  | unknown
  | escaped
deriving DecidableEq

/-- `_id.split(':', 1)[1]`: the part after the first `":"`, if any
(`none` models the `IndexError` when the separator is absent). -/
def splitAfterColon (s : String) : Option String :=
  match s.data.dropWhile (fun c => c ≠ ':') with
  | [] => none
  | _ :: rest => some (String.mk rest)

/-- `__kibiter_version` (lines 130-167). -/
def kibiter_version (major : String) (res : ProbeResponse) : ProbeResult :=
  if major = "6" then
    if isHTTPErrorStatus res.status then ProbeResult.unknown
    else
      match res.hits with
      | [] => ProbeResult.unknown
      | h :: _ =>
        match splitAfterColon h with
        | some v => ProbeResult.found v
        | none => ProbeResult.unknown
  else
    if isHTTPErrorStatus res.status then ProbeResult.unknown
    else
      match res.hits with
      | [] => ProbeResult.escaped
      | h :: _ => ProbeResult.found h

/-- C8 counterexample: for a legacy generation (major `"5"`), a successful
probe response (status 200) with no matching configuration document makes
`hits[0]` raise an uncaught `IndexError` — the call does not return the
`None` sentinel and the exception escapes, falsifying the claim for
non-`"6"` generations. -/
theorem kibiter_version_escape_counterexample :
    kibiter_version "5" ⟨200, []⟩ = ProbeResult.escaped ∧
    kibiter_version "5" ⟨200, []⟩ ≠ ProbeResult.unknown := by
  refine ⟨rfl, by decide⟩

/-- C8 (amended): for generation `"6"` a probe that finds no matching
configuration document (and, more generally, any HTTP-error response)
returns the unknown sentinel with no exception escaping; for every other
generation this holds only when the probe fails with an HTTP error status —
a successful response with no matching document escapes as an uncaught
exception. -/
theorem kibiter_version_spec (major : String) (res : ProbeResponse) :
    (isHTTPErrorStatus res.status → kibiter_version major res = ProbeResult.unknown) ∧
    (major = "6" → res.hits = [] → kibiter_version major res = ProbeResult.unknown) ∧
    (major ≠ "6" → ¬ isHTTPErrorStatus res.status → res.hits = [] →
      kibiter_version major res = ProbeResult.escaped) := by
  refine ⟨?_, ?_, ?_⟩
  · intro herr
    unfold kibiter_version
    by_cases h6 : major = "6"
    · rw [if_pos h6, if_pos herr]
    · rw [if_neg h6, if_pos herr]
  · intro h6 hh
    unfold kibiter_version
    rw [if_pos h6, hh]
    split
    · rfl
    · rfl
  · intro h6 herr hh
    unfold kibiter_version
    rw [if_neg h6, if_neg herr, hh]

/-- Witness for `kibiter_version_spec` at major `"6"` with an empty hit
list, and at major `"5"` with a 404 response. -/
theorem kibiter_version_spec_witness :
    kibiter_version "6" ⟨200, []⟩ = ProbeResult.unknown ∧
    kibiter_version "5" ⟨404, ["4.4.1"]⟩ = ProbeResult.unknown :=
  ⟨(kibiter_version_spec "6" ⟨200, []⟩).2.1 rfl rfl,
   (kibiter_version_spec "5" ⟨404, ["4.4.1"]⟩).1 (by decide)⟩

/-! ## Menu publication (`TaskPanelsMenu.execute` and helpers, lines 569-683)

`execute` builds the menu, uploads the title, deletes the stored menu
document (response ignored — a no-op when no menu exists) and then posts the
new one; `__create_dashboard_menu` re-raises when the POST fails (the
mapping PUT failure is only logged).  The stored menu document is modelled
as `Option` of a menu; one run is modelled by the ordered list of steps it
performs together with the final stored document and whether the run
raised. -/

/-- The externally visible steps of one `TaskPanelsMenu.execute` run, in
order. -/
inductive MenuStep where
  | uploadTitle
  | removeMenu
  | putMapping
  | writeMenu
deriving DecidableEq

/-- `__remove_dashboard_menu` (lines 607-620): unconditional DELETE of the
stored menu document; the response is ignored. -/
def remove_dashboard_menu (_stored : Option (List (String × MenuVal))) :
    Option (List (String × MenuVal)) := none

/-- `__create_dashboard_menu` (lines 569-605): PUT the mapping (failures
only logged), POST the menu; on POST success the new menu is stored, on POST
failure the stored state is unchanged and the `HTTPError` is re-raised
(second component `true`). -/
def create_dashboard_menu (stored : Option (List (String × MenuVal)))
    (dash_menu : List (String × MenuVal)) (postOk : Bool) :
    Option (List (String × MenuVal)) × Bool :=
  if postOk then (some dash_menu, false) else (stored, true)

/-- `TaskPanelsMenu.execute` (lines 669-683), from the point where the menu
has been built: upload title, remove the existing menu, put the menu
mapping, write the new menu.  Returns the ordered step list, the final
stored menu document and whether the run raised. -/
def menu_execute (prior : Option (List (String × MenuVal)))
    (dash_menu : List (String × MenuVal)) (postOk : Bool) :
    List MenuStep × (Option (List (String × MenuVal)) × Bool) :=
  ([MenuStep.uploadTitle, MenuStep.removeMenu, MenuStep.putMapping, MenuStep.writeMenu],
   create_dashboard_menu (remove_dashboard_menu prior) dash_menu postOk)

/-- C9: in every menu-publication run the removal step precedes the write
step unconditionally (also when no prior menu exists — the final state never
depends on the prior menu); when the new-menu write fails the run raises
after the removal has already taken effect, leaving no menu stored; when the
write succeeds the new menu is stored; hence a stale prior menu never
survives a run that reached the write step. -/
theorem menu_publication_spec (prior : Option (List (String × MenuVal)))
    (m : List (String × MenuVal)) (postOk : Bool) :
    (menu_execute prior m postOk).1.indexOf MenuStep.removeMenu <
      (menu_execute prior m postOk).1.indexOf MenuStep.writeMenu ∧
    MenuStep.removeMenu ∈ (menu_execute prior m postOk).1 ∧
    (menu_execute prior m postOk).2 = (menu_execute none m postOk).2 ∧
    ((menu_execute prior m postOk).2.1 = none ∨
      (menu_execute prior m postOk).2.1 = some m) ∧
    (postOk = false → (menu_execute prior m postOk).2.2 = true ∧
      (menu_execute prior m postOk).2.1 = none) ∧
    (postOk = true → (menu_execute prior m postOk).2.2 = false ∧
      (menu_execute prior m postOk).2.1 = some m) := by
  cases postOk <;>
    simp [menu_execute, remove_dashboard_menu, create_dashboard_menu]

/-- Witness for `menu_publication_spec`: a run starting from a stored prior
menu whose write step fails ends raised with no menu stored. -/
theorem menu_publication_spec_witness :
    (menu_execute (some [("Overview", MenuVal.leaf "Overview")]) [] false).2.2 = true ∧
    (menu_execute (some [("Overview", MenuVal.leaf "Overview")]) [] false).2.1 = none :=
  (menu_publication_spec (some [("Overview", MenuVal.leaf "Overview")]) [] false).2.2.2.2.1 rfl

end Sirmordred
